import Mathlib

/-!
Verification of the VerifyHire employee identity matching engine against the
code of the repository: the confidence scoring pipeline, temporal overlap
analysis, grace-period handling, match persistence, ingestion employee-type
mapping, and business-email validation. Scores are rationals, timestamps are
integers (milliseconds), strings are Lean strings or character lists.
-/

namespace VerifyHire

/-! ## Confidence scoring: weights and matched identifiers -/

/-- The identifier weights of the scoring configuration: ssn 0.45, email 0.25,
phone 0.15, fullName 0.10, address 0.05. -/
structure IdentifierWeights where
  ssn : ℚ
  email : ℚ
  phone : ℚ
  fullName : ℚ
  address : ℚ

/-- The configured weights. -/
def weights : IdentifierWeights :=
  { ssn := 45/100, email := 25/100, phone := 15/100, fullName := 10/100, address := 5/100 }

/-- Result of one exact-identifier comparison. -/
structure IdentifierMatch where
  isExact : Bool
deriving DecidableEq

/-- Result of the fuzzy name comparison. -/
structure NameMatch where
  similarity : ℚ
deriving DecidableEq

/-- Per-pair identifier evidence; a `none` field is an identifier absent from at
least one of the two records. -/
structure MatchedIdentifiers where
  ssn : Option IdentifierMatch
  email : Option IdentifierMatch
  phone : Option IdentifierMatch
  name : Option NameMatch
deriving DecidableEq

/-- `calculateBaseScore`: starts at 0 and adds each identifier weight whose
comparison is present and exact; the name weight is scaled by the similarity and
only added when the similarity is at least 0.9. -/
def calculateBaseScore (identifiers : MatchedIdentifiers) : ℚ :=
  (if (identifiers.ssn.map IdentifierMatch.isExact).getD false then weights.ssn else 0)
  + (if (identifiers.email.map IdentifierMatch.isExact).getD false then weights.email else 0)
  + (if (identifiers.phone.map IdentifierMatch.isExact).getD false then weights.phone else 0)
  + (match identifiers.name with
     | some n => if 9/10 ≤ n.similarity then weights.fullName * n.similarity else 0
     | none => 0)

/-- Modelled from the spec: the renormalized confidence of section 4.5,
"Confidence = Σ(identifierWeight × identifierSimilarity) over all identifiers
present in both records, renormalized by the sum of weights of identifiers that
were actually present". Exact identifiers count similarity 1 when equal and 0
otherwise. No function in the repository source computes this; it is stated
here to compare with calculateBaseScore. -/
def renormalizedBaseScore (identifiers : MatchedIdentifiers) : ℚ :=
  let weightedSum :=
    (match identifiers.ssn with
     | some m => if m.isExact then weights.ssn else 0
     | none => 0)
    + (match identifiers.email with
       | some m => if m.isExact then weights.email else 0
       | none => 0)
    + (match identifiers.phone with
       | some m => if m.isExact then weights.phone else 0
       | none => 0)
    + (match identifiers.name with
       | some n => weights.fullName * n.similarity
       | none => 0)
  let presentWeights :=
    (match identifiers.ssn with
     | some _ => weights.ssn
     | none => 0)
    + (match identifiers.email with
       | some _ => weights.email
       | none => 0)
    + (match identifiers.phone with
       | some _ => weights.phone
       | none => 0)
    + (match identifiers.name with
       | some _ => weights.fullName
       | none => 0)
  weightedSum / presentWeights

/-! ## Temporal and contextual contributions to confidence -/

/-- One employment interval; a `none` end date is an ongoing employment. -/
structure EmploymentRecord where
  startDate : ℤ
  endDate : Option ℤ
deriving DecidableEq

/-- The employment history handed to the temporal scorer. -/
abbrev EmploymentHistory := List EmploymentRecord

/-- Modelled from the spec: `calculateTemporalScore` has no body in the
repository source (only its call site inside `ConfidenceScore.calculate`); the
spec states "Temporal overlap does not change confidence (confidence answers
same person?)", so the temporal contribution to confidence is a constant, taken
as zero. -/
def calculateTemporalScore (_history : EmploymentHistory) : ℚ := 0

/-- Contextual evidence of a candidate pair. -/
structure MatchContext where
  industryMatch : Bool
  geographicProximity : Bool
  rolesSimilarity : Bool
deriving DecidableEq

/-- Modelled from the spec: `calculateContextualScore` has no body in the
repository source (only its call site inside `ConfidenceScore.calculate`); the
configured contextual factors are bonuses of 0.1 for same industry, 0.05 for
geographic proximity, 0.05 for similar roles. -/
def calculateContextualScore (context : MatchContext) : ℚ :=
  (if context.industryMatch then 1/10 else 0)
  + (if context.geographicProximity then 5/100 else 0)
  + (if context.rolesSimilarity then 5/100 else 0)

/-- A candidate pair as handed to the confidence aggregator. -/
structure EmployeeMatch where
  identifiers : MatchedIdentifiers
  employmentHistory : EmploymentHistory
  context : MatchContext

/-- `ConfidenceScore.calculate`: base + temporal + contextual, clamped above at
1.0 by Math.min. -/
def ConfidenceScore.calculate (m : EmployeeMatch) : ℚ :=
  min 1 (calculateBaseScore m.identifiers
    + calculateTemporalScore m.employmentHistory
    + calculateContextualScore m.context)

/-! ## Temporal overlap analysis -/

/-- Milliseconds per day, the divisor 1000*60*60*24 of the overlap computation. -/
def msPerDay : ℚ := 86400000

/-- The value `calculateOverlap` returns: overlap days and the overlap as a
fraction of the shorter employment. -/
structure OverlapCalculation where
  days : ℤ
  percentage : ℚ
deriving DecidableEq

/-- `calculateOverlap`: a `none` end date is replaced by `now`; the overlap runs
from the later start to the earlier effective end, empty intersections give 0
days, and day counts are ceilings of millisecond differences divided by one
day. -/
def calculateOverlap (start1 : ℤ) (end1 : Option ℤ) (start2 : ℤ) (end2 : Option ℤ)
    (now : ℤ) : OverlapCalculation :=
  let effectiveEnd1 := end1.getD now
  let effectiveEnd2 := end2.getD now
  let overlapStart := max start1 start2
  let overlapEnd := min effectiveEnd1 effectiveEnd2
  if overlapEnd < overlapStart then { days := 0, percentage := 0 }
  else
    let overlapDays : ℤ := ⌈((overlapEnd - overlapStart : ℤ) : ℚ) / msPerDay⌉
    let totalDays1 : ℤ := ⌈((effectiveEnd1 - start1 : ℤ) : ℚ) / msPerDay⌉
    let totalDays2 : ℤ := ⌈((effectiveEnd2 - start2 : ℤ) : ℚ) / msPerDay⌉
    { days := overlapDays
      percentage := (overlapDays : ℚ) / ((min totalDays1 totalDays2 : ℤ) : ℚ) }

/-! ## Grace periods and risk classification -/

/-- The employee types produced by the ingestion mappers. -/
inductive EmployeeType where
  | FULL_TIME
  | PART_TIME
  | CONTRACT
  | INTERN
deriving DecidableEq

/-- Risk tiers of a potential dual-employment conflict. -/
inductive RiskLevel where
  | informational
  | low
  | medium
  | high
  | critical
deriving DecidableEq

/-- Grace period for standard (full-time) employees, 30 days. -/
def standardGracePeriod : ℤ := 30

/-- Grace period for contractors, 7 days. -/
def contractorGracePeriod : ℤ := 7

/-- Grace period for executives, 90 days. -/
def executiveGracePeriod : ℤ := 90

/-- Modelled from the spec: `getGracePeriod` has no body in the repository
source (only its call site inside `applyGracePeriod` and the configured
constants standard 30 / contractor 7 / executive 90); the spec selects the
grace-period days by employee type, so contractors get the contractor period
and every other employee type the standard one (no employee type names an
executive). -/
def getGracePeriod (employeeType : EmployeeType) : ℤ :=
  match employeeType with
  | .CONTRACT => contractorGracePeriod
  | _ => standardGracePeriod

/-- Modelled from the spec: `assessRiskLevel` has no body in the repository
source (only its call sites); the spec classifies adjusted overlap as 0 days →
informational, 1–30 → low, 31–90 → medium, above 90 → high. -/
def assessRiskLevel (adjustedDays : ℤ) : RiskLevel :=
  if adjustedDays ≤ 0 then .informational
  else if adjustedDays ≤ 30 then .low
  else if adjustedDays ≤ 90 then .medium
  else .high

/-- The value `applyGracePeriod` returns. -/
structure OverlapResult where
  days : ℤ
  percentage : ℚ
  adjustedDays : ℤ
  withinGracePeriod : Bool
  riskLevel : RiskLevel
deriving DecidableEq

/-- `applyGracePeriod`: overlap at or below the grace period keeps its raw days,
zeroes the adjusted days, sets withinGracePeriod and answers riskLevel low;
above it, the grace period is subtracted and the risk is assessed from the
adjusted days. -/
def applyGracePeriod (overlap : OverlapCalculation) (employeeType : EmployeeType) :
    OverlapResult :=
  let gracePeriod := getGracePeriod employeeType
  if overlap.days ≤ gracePeriod then
    { days := overlap.days, percentage := overlap.percentage, adjustedDays := 0
      withinGracePeriod := true, riskLevel := .low }
  else
    { days := overlap.days, percentage := overlap.percentage
      adjustedDays := overlap.days - gracePeriod
      withinGracePeriod := false
      riskLevel := assessRiskLevel (overlap.days - gracePeriod) }

/-! ## Match persistence -/

/-- A pair scored by one matching run. -/
structure ScoredPair where
  employee1Id : String
  employee2Id : String
  confidence : ℚ
deriving DecidableEq

/-- Modelled from the spec: `EmployeeMatchingService.runMatching` has no body in
the repository source (only its tRPC caller); the spec states "scores below
minimum are discarded, not persisted" and a Match is "created when confidence ≥
minimum threshold", so the run persists exactly the scored pairs whose
confidence reaches minimumConfidence. -/
def runMatching (minimumConfidence : ℚ) (pairs : List ScoredPair) : List ScoredPair :=
  pairs.filter fun p => minimumConfidence ≤ p.confidence

/-- One row of the Match table: the unique key columns employee1Id, employee2Id
and the scored payload. -/
structure MatchRow where
  employee1Id : String
  employee2Id : String
  confidenceScore : ℚ
deriving DecidableEq

/-- The unique key `(employee1Id, employee2Id)` of a Match row. -/
def rowKey (r : MatchRow) : String × String := (r.employee1Id, r.employee2Id)

/-- Modelled from the spec: the canonical pair, "a deterministic ordering of two
employee IDs used to enforce a single Match row per pair" — the two ids sorted. -/
def canonicalPair (a b : String) : String × String :=
  if a ≤ b then (a, b) else (b, a)

/-- Modelled from the spec: the idempotent upsert keyed by the canonical pair
(the schema's unique constraint on (employee1Id, employee2Id) is in the source,
the upsert code is not) — when a row with the canonical key exists it is
replaced, otherwise a new row is appended. -/
def upsertMatch (db : List MatchRow) (a b : String) (score : ℚ) : List MatchRow :=
  if db.any fun r => decide (rowKey r = canonicalPair a b) then
    db.map fun r =>
      if rowKey r = canonicalPair a b then
        { employee1Id := (canonicalPair a b).1, employee2Id := (canonicalPair a b).2,
          confidenceScore := score }
      else r
  else
    db ++ [{ employee1Id := (canonicalPair a b).1, employee2Id := (canonicalPair a b).2,
             confidenceScore := score }]

/-- The Match-table invariant: keys are pairwise distinct (the schema's unique
constraint) and every row stores its pair in canonical order. -/
def matchDbInvariant (db : List MatchRow) : Prop :=
  (db.map rowKey).Nodup ∧ ∀ r ∈ db, r.employee1Id ≤ r.employee2Id

/-! ## Levenshtein distance -/

/-- The dynamic-programming matrix of `levenshteinDistance`: `levMatrix a b i j`
is `matrix[i][j]`, the edit distance between the first `j` characters of `a`
and the first `i` characters of `b`. Borders are `matrix[i][0] = i` and
`matrix[0][j] = j`; an interior cell keeps the diagonal when the characters
`b[i-1]` and `a[j-1]` agree and otherwise takes 1 plus the minimum of the
diagonal, left and upper neighbours. -/
def levMatrix (a b : List Char) : ℕ → ℕ → ℕ
  | 0, j => j
  | i + 1, 0 => i + 1
  | i + 1, j + 1 =>
    if b.getD i ' ' = a.getD j ' ' then
      levMatrix a b i j
    else
      min (levMatrix a b i j + 1)
        (min (levMatrix a b (i + 1) j + 1) (levMatrix a b i (j + 1) + 1))
termination_by i j => (i, j)

/-- `levenshteinDistance` returns `matrix[b.length][a.length]`. -/
def levenshteinDistance (a b : List Char) : ℕ :=
  levMatrix a b b.length a.length

/-! ## The pairwise score -/

/-- The fields of an employee record that feed the pairwise score: hashed
primary identifiers, the normalized name, the employment interval, and the
contextual attributes. -/
structure Employee where
  ssnHash : Option String
  emailHash : Option String
  phoneHash : Option String
  nameNormalized : List Char
  startDate : ℤ
  endDate : Option ℤ
  industry : String
  location : String
  jobTitle : String

/-- Exact comparison of one hashed identifier: present only when both records
carry it, exact when the hashes are byte-equal. -/
def compareExact (x y : Option String) : Option IdentifierMatch :=
  match x, y with
  | some a, some b => some { isExact := a == b }
  | _, _ => none

/-- Modelled from the spec: Levenshtein-distance-based name similarity
"normalized to [0,1] by 1 - distance / max(len(a), len(b))", with empty strings
yielding similarity 0 (never divide-by-zero); the normalization formula has no
body in the repository source, only the raw `levenshteinDistance` it divides. -/
def nameSimilarity (a b : List Char) : ℚ :=
  if max a.length b.length = 0 then 0
  else 1 - (levenshteinDistance a b : ℚ) / (max a.length b.length : ℚ)

/-- The per-identifier evidence of a candidate pair: exact hash comparisons for
ssn, email and phone, fuzzy similarity for the name. -/
def matchedIdentifiers (A B : Employee) : MatchedIdentifiers :=
  { ssn := compareExact A.ssnHash B.ssnHash
    email := compareExact A.emailHash B.emailHash
    phone := compareExact A.phoneHash B.phoneHash
    name := some { similarity := nameSimilarity A.nameNormalized B.nameNormalized } }

/-- The contextual evidence of a candidate pair. -/
def matchContext (A B : Employee) : MatchContext :=
  { industryMatch := A.industry == B.industry
    geographicProximity := A.location == B.location
    rolesSimilarity := A.jobTitle == B.jobTitle }

/-- The pairwise score of two employees: the aggregated confidence together with
the temporal overlap of the two employment intervals. -/
def scorePair (now : ℤ) (A B : Employee) : ℚ × OverlapCalculation :=
  (ConfidenceScore.calculate
      { identifiers := matchedIdentifiers A B
        employmentHistory :=
          [{ startDate := A.startDate, endDate := A.endDate },
           { startDate := B.startDate, endDate := B.endDate }]
        context := matchContext A B },
    calculateOverlap A.startDate A.endDate B.startDate B.endDate now)

/-! ## Ingestion employee-type mapping -/

/-- `mapEmployeeType` of the JustWorks connector: a switch on the provider code
falling through to FULL_TIME. -/
def mapEmployeeType (jwType : String) : EmployeeType :=
  if jwType = "full_time" then .FULL_TIME
  else if jwType = "part_time" then .PART_TIME
  else if jwType = "contractor" then .CONTRACT
  else .FULL_TIME

/-- The provider codes `mapADPEmployeeType` recognizes, after uppercasing. -/
def adpRecognizedTypes : List String :=
  ["FULLTIME", "FULL_TIME", "F", "PARTTIME", "PART_TIME", "P",
   "CONTRACT", "CONTRACTOR", "C", "INTERN", "INTERNSHIP", "I"]

/-- `mapADPEmployeeType` of the ADP connector: uppercases the optional provider
code and switches on it, falling through to FULL_TIME (an absent code matches no
case and also falls through). -/
def mapADPEmployeeType (employmentType : Option String) : EmployeeType :=
  match employmentType.map String.toUpper with
  | some t =>
    if t = "FULLTIME" ∨ t = "FULL_TIME" ∨ t = "F" then .FULL_TIME
    else if t = "PARTTIME" ∨ t = "PART_TIME" ∨ t = "P" then .PART_TIME
    else if t = "CONTRACT" ∨ t = "CONTRACTOR" ∨ t = "C" then .CONTRACT
    else if t = "INTERN" ∨ t = "INTERNSHIP" ∨ t = "I" then .INTERN
    else .FULL_TIME
  | none => .FULL_TIME

/-! ## Business-email validation -/

/-- The personal domains rejected by the sign-in and sign-up schemas. -/
def personalDomains : List (List Char) :=
  ["gmail.com".toList, "yahoo.com".toList, "hotmail.com".toList, "outlook.com".toList]

/-- JavaScript's String.prototype.split for a one-character separator: splitting
the empty string gives one empty part, a separator character opens a new empty
part, any other character is prepended to the first part of the rest. -/
def jsSplit (sep : Char) : List Char → List (List Char)
  | [] => [[]]
  | c :: rest =>
    if c = sep then [] :: jsSplit sep rest
    else
      match jsSplit sep rest with
      | [] => [[c]]
      | p :: ps => (c :: p) :: ps

/-- The business-email refinement of signInSchema and signUpSchema: take the
second component of splitting the email on the at sign, lowercase it when it
exists, default the missing case to the empty string, and accept exactly when
the result is not a personal domain. -/
def isBusinessEmail (email : List Char) : Bool :=
  let domain := ((jsSplit '@' email)[1]?).map (List.map Char.toLower)
  !(personalDomains.contains (domain.getD []))

/-- The substring strictly after the first at sign, when one exists: the reading
of "the substring after the first at sign" used by the claim under test. -/
def afterFirstAt (email : List Char) : Option (List Char) :=
  if email.contains '@' then
    some ((email.dropWhile fun c => !(c == '@')).tail)
  else none

/-- The segment between the first at sign and the next at sign or the end of the
string: what splitting on the at sign actually puts in its second component. -/
def segmentAfterFirstAt (email : List Char) : Option (List Char) :=
  if email.contains '@' then
    some (((email.dropWhile fun c => !(c == '@')).tail).takeWhile fun c => !(c == '@'))
  else none

/-! ## Claim theorems -/

/-- Claim C1 as stated is false on the code: for a pair whose SSN comparison is
present and exact while email, phone and name are absent, `calculateBaseScore`
answers the plain SSN weight 0.45, not the renormalized value 1 the claim
requires. -/
theorem c1_counterexample :
    calculateBaseScore
        { ssn := some { isExact := true }, email := none, phone := none, name := none }
      = 45/100
    ∧ renormalizedBaseScore
        { ssn := some { isExact := true }, email := none, phone := none, name := none }
      = 1
    ∧ calculateBaseScore
        { ssn := some { isExact := true }, email := none, phone := none, name := none }
      ≠ renormalizedBaseScore
        { ssn := some { isExact := true }, email := none, phone := none, name := none } := by
  refine ⟨?_, ?_, ?_⟩ <;> norm_num [calculateBaseScore, renormalizedBaseScore, weights]

/-- Claim C1, amended: `calculateBaseScore` does not renormalize by the weights
of the identifiers present — a candidate pair whose SSN identifier is present
and exactly equal while email, phone and name are absent scores exactly the SSN
weight 0.45, strictly below the renormalized SSN-only value 1 that the
renormalized aggregation would give. -/
theorem c1_lone_ssn_score (ids : MatchedIdentifiers)
    (hssn : ids.ssn = some { isExact := true })
    (hemail : ids.email = none) (hphone : ids.phone = none) (hname : ids.name = none) :
    calculateBaseScore ids = weights.ssn
    ∧ renormalizedBaseScore ids = 1
    ∧ calculateBaseScore ids < renormalizedBaseScore ids := by
  refine ⟨?_, ?_, ?_⟩ <;>
    norm_num [calculateBaseScore, renormalizedBaseScore, weights, hssn, hemail, hphone, hname]

/-- Witness for `c1_lone_ssn_score` at the SSN-only identifier set. -/
theorem c1_lone_ssn_score_witness :
    calculateBaseScore
        { ssn := some { isExact := true }, email := none, phone := none, name := none }
      = weights.ssn :=
  (c1_lone_ssn_score
    { ssn := some { isExact := true }, email := none, phone := none, name := none }
    rfl rfl rfl rfl).1

/-- Claim C2 as stated is false on the code: a raw overlap of exactly the
30-day full-time grace period is within the grace period, but `applyGracePeriod`
hard-codes its risk level to low, not informational. -/
theorem c2_counterexample :
    (applyGracePeriod { days := 30, percentage := 0 } EmployeeType.FULL_TIME).withinGracePeriod
        = true
    ∧ (applyGracePeriod { days := 30, percentage := 0 } EmployeeType.FULL_TIME).riskLevel
        = RiskLevel.low
    ∧ RiskLevel.low ≠ RiskLevel.informational := by
  refine ⟨?_, ?_, ?_⟩ <;> decide

/-- Claim C2, amended: a raw overlap of exactly the employee-type grace period
classifies as withinGracePeriod = true with adjustedDays = 0 but riskLevel =
low (the code hard-codes low inside the grace period, not informational); a raw
overlap of one day more classifies as withinGracePeriod = false with riskLevel
= low (the assessed level of 1 adjusted day), i.e. at least low. -/
theorem c2_grace_boundary (o : OverlapCalculation) (t : EmployeeType) :
    (o.days = getGracePeriod t →
      (applyGracePeriod o t).withinGracePeriod = true
      ∧ (applyGracePeriod o t).adjustedDays = 0
      ∧ (applyGracePeriod o t).riskLevel = RiskLevel.low)
    ∧ (o.days = getGracePeriod t + 1 →
      (applyGracePeriod o t).withinGracePeriod = false
      ∧ (applyGracePeriod o t).riskLevel = RiskLevel.low) := by
  constructor
  · intro h
    have hle : o.days ≤ getGracePeriod t := le_of_eq h
    simp [applyGracePeriod, hle]
  · intro h
    have hnle : ¬ o.days ≤ getGracePeriod t := by omega
    have hadj : o.days - getGracePeriod t = 1 := by omega
    constructor
    · simp [applyGracePeriod, hnle]
    · norm_num [applyGracePeriod, hnle, hadj, assessRiskLevel]

/-- Witness for `c2_grace_boundary` at 30 and 31 days of overlap for a full-time
employee (grace period 30). -/
theorem c2_grace_boundary_witness :
    ((applyGracePeriod { days := 30, percentage := 0 } EmployeeType.FULL_TIME).withinGracePeriod
        = true
      ∧ (applyGracePeriod { days := 30, percentage := 0 } EmployeeType.FULL_TIME).adjustedDays
        = 0
      ∧ (applyGracePeriod { days := 30, percentage := 0 } EmployeeType.FULL_TIME).riskLevel
        = RiskLevel.low)
    ∧ ((applyGracePeriod { days := 31, percentage := 0 } EmployeeType.FULL_TIME).withinGracePeriod
        = false
      ∧ (applyGracePeriod { days := 31, percentage := 0 } EmployeeType.FULL_TIME).riskLevel
        = RiskLevel.low) :=
  ⟨(c2_grace_boundary { days := 30, percentage := 0 } EmployeeType.FULL_TIME).1 (by decide),
   (c2_grace_boundary { days := 31, percentage := 0 } EmployeeType.FULL_TIME).2 (by decide)⟩

/-- Claim C3: the aggregated confidence score depends only on the identifier
evidence and the contextual input — two runs on the same per-identifier
similarities with different employment histories produce equal confidence. -/
theorem c3_confidence_ignores_temporal (ids : MatchedIdentifiers) (ctx : MatchContext)
    (h1 h2 : EmploymentHistory) :
    ConfidenceScore.calculate { identifiers := ids, employmentHistory := h1, context := ctx }
      = ConfidenceScore.calculate
          { identifiers := ids, employmentHistory := h2, context := ctx } := rfl

/-- Claim C4: a scored candidate pair whose confidence lies strictly below the
configured minimumConfidence is never in the persisted output of a matching
run. -/
theorem c4_threshold_filtering (minimumConfidence : ℚ) (pairs : List ScoredPair)
    (p : ScoredPair) (h : p.confidence < minimumConfidence) :
    p ∉ runMatching minimumConfidence pairs := by
  intro hmem
  rcases List.mem_filter.mp hmem with ⟨-, hdec⟩
  exact absurd (of_decide_eq_true hdec) (not_le.mpr h)

/-- Witness for `c4_threshold_filtering`: a pair scoring 0.5 against a 0.7
threshold is not persisted even when it is the only candidate. -/
theorem c4_threshold_filtering_witness :
    ({ employee1Id := "a", employee2Id := "b", confidence := 1/2 } : ScoredPair)
      ∉ runMatching (7/10)
          [{ employee1Id := "a", employee2Id := "b", confidence := 1/2 }] :=
  c4_threshold_filtering (7/10) _ _ (by norm_num)

/-- Claim C8: for every input the aggregated confidence score lies in [0,1]; in
particular the clamp keeps it at most 1 even when the base, temporal and
contextual contributions sum above 1. -/
theorem c8_confidence_in_unit_interval (m : EmployeeMatch) :
    0 ≤ ConfidenceScore.calculate m ∧ ConfidenceScore.calculate m ≤ 1 := by
  have hbase : 0 ≤ calculateBaseScore m.identifiers := by
    unfold calculateBaseScore
    refine add_nonneg (add_nonneg (add_nonneg ?_ ?_) ?_) ?_
    · split <;> norm_num [weights]
    · split <;> norm_num [weights]
    · split <;> norm_num [weights]
    · cases m.identifiers.name with
      | none => norm_num
      | some n =>
        by_cases hn : (9:ℚ)/10 ≤ n.similarity
        · simp only [hn, if_true]
          exact mul_nonneg (by norm_num [weights]) (le_trans (by norm_num) hn)
        · simp [hn]
  have hctx : 0 ≤ calculateContextualScore m.context := by
    unfold calculateContextualScore
    refine add_nonneg (add_nonneg ?_ ?_) ?_ <;> split <;> norm_num
  have htemp : calculateTemporalScore m.employmentHistory = 0 := rfl
  constructor
  · unfold ConfidenceScore.calculate
    refine le_min (by norm_num) ?_
    rw [htemp]
    linarith
  · exact min_le_left 1 _

/-- Claim C9: any provider employment-type code outside the recognized values —
including an absent ADP code — maps to FULL_TIME in both the JustWorks and the
ADP ingestion mappers. -/
theorem c9_unrecognized_type_defaults_full_time (jwType : String) (adpType : Option String)
    (hjw : jwType ∉ (["full_time", "part_time", "contractor"] : List String))
    (hadp : ∀ u ∈ adpType, String.toUpper u ∉ adpRecognizedTypes) :
    mapEmployeeType jwType = EmployeeType.FULL_TIME
    ∧ mapADPEmployeeType adpType = EmployeeType.FULL_TIME := by
  constructor
  · simp only [List.mem_cons, List.not_mem_nil, or_false, not_or] at hjw
    obtain ⟨h1, h2, h3⟩ := hjw
    simp [mapEmployeeType, h1, h2, h3]
  · cases adpType with
    | none => rfl
    | some u =>
      have hmem : String.toUpper u ∉ adpRecognizedTypes := hadp u rfl
      simp only [mapADPEmployeeType, Option.map_some']
      split_ifs with hc1 hc2 hc3 hc4 <;>
        first
          | rfl
          | (exfalso
             apply hmem
             simp only [adpRecognizedTypes, List.mem_cons, List.not_mem_nil, or_false]
             tauto)

/-- Witness for `c9_unrecognized_type_defaults_full_time` at the unrecognized
JustWorks code "freelance" and an absent ADP code. -/
theorem c9_unrecognized_type_defaults_full_time_witness :
    mapEmployeeType "freelance" = EmployeeType.FULL_TIME
    ∧ mapADPEmployeeType none = EmployeeType.FULL_TIME :=
  c9_unrecognized_type_defaults_full_time "freelance" none (by decide)
    (by intro u hu; cases hu)

/-- Claim C6: with a missing end date replaced by now, the overlap-day count of
`calculateOverlap` equals max(0, ceil((overlapEnd - overlapStart) / 1 day)) for
overlapStart = max of the starts and overlapEnd = min of the effective ends; it
is never negative, and disjoint intervals yield exactly 0 days. -/
theorem c6_overlap_days_formula (start1 : ℤ) (end1 : Option ℤ) (start2 : ℤ)
    (end2 : Option ℤ) (now : ℤ) :
    (calculateOverlap start1 end1 start2 end2 now).days
      = max 0 ⌈((min (end1.getD now) (end2.getD now) - max start1 start2 : ℤ) : ℚ) / msPerDay⌉
    ∧ 0 ≤ (calculateOverlap start1 end1 start2 end2 now).days
    ∧ (min (end1.getD now) (end2.getD now) < max start1 start2 →
        (calculateOverlap start1 end1 start2 end2 now).days = 0) := by
  have hceil_nonpos :
      min (end1.getD now) (end2.getD now) < max start1 start2 →
        ⌈((min (end1.getD now) (end2.getD now) - max start1 start2 : ℤ) : ℚ) / msPerDay⌉ ≤ 0 := by
    intro h
    have hnum : ((min (end1.getD now) (end2.getD now) - max start1 start2 : ℤ) : ℚ) ≤ 0 := by
      exact_mod_cast (by omega : (min (end1.getD now) (end2.getD now) - max start1 start2 : ℤ) ≤ 0)
    have hdiv : ((min (end1.getD now) (end2.getD now) - max start1 start2 : ℤ) : ℚ) / msPerDay ≤ 0 :=
      div_nonpos_of_nonpos_of_nonneg hnum (by norm_num [msPerDay])
    calc ⌈((min (end1.getD now) (end2.getD now) - max start1 start2 : ℤ) : ℚ) / msPerDay⌉
        ≤ ⌈(0 : ℚ)⌉ := Int.ceil_le_ceil hdiv
      _ = 0 := by norm_num
  have hmain :
      (calculateOverlap start1 end1 start2 end2 now).days
        = max 0 ⌈((min (end1.getD now) (end2.getD now) - max start1 start2 : ℤ) : ℚ) / msPerDay⌉ := by
    simp only [calculateOverlap]
    by_cases h : min (end1.getD now) (end2.getD now) < max start1 start2
    · rw [if_pos h]
      exact (max_eq_left (hceil_nonpos h)).symm
    · rw [if_neg h]
      push_neg at h
      have hnum : (0 : ℚ) ≤ ((min (end1.getD now) (end2.getD now) - max start1 start2 : ℤ) : ℚ) := by
        exact_mod_cast (by omega : (0:ℤ) ≤ min (end1.getD now) (end2.getD now) - max start1 start2)
      have hdiv : (0 : ℚ)
          ≤ ((min (end1.getD now) (end2.getD now) - max start1 start2 : ℤ) : ℚ) / msPerDay :=
        div_nonneg hnum (by norm_num [msPerDay])
      have hceil : 0
          ≤ ⌈((min (end1.getD now) (end2.getD now) - max start1 start2 : ℤ) : ℚ) / msPerDay⌉ := by
        calc (0:ℤ) = ⌈(0 : ℚ)⌉ := by norm_num
          _ ≤ _ := Int.ceil_le_ceil hdiv
      exact (max_eq_right hceil).symm
  refine ⟨hmain, ?_, ?_⟩
  · rw [hmain]
    exact le_max_left 0 _
  · intro h
    rw [hmain]
    exact max_eq_left (hceil_nonpos h)

/-- Witness for `c6_overlap_days_formula`: the intervals [0,10] and [20,30]
milliseconds are disjoint and overlap for 0 days. -/
theorem c6_overlap_days_formula_witness :
    (calculateOverlap 0 (some 10) 20 (some 30) 0).days = 0 :=
  (c6_overlap_days_formula 0 (some 10) 20 (some 30) 0).2.2 (by decide)

/-! ## Lemmas about the canonical pair and the upsert -/

theorem canonicalPair_fst_le_snd (a b : String) :
    (canonicalPair a b).1 ≤ (canonicalPair a b).2 := by
  unfold canonicalPair
  by_cases h : a ≤ b
  · simp [h]
  · simp only [h, if_false]
    exact le_of_not_le h

theorem canonicalPair_comm (a b : String) : canonicalPair a b = canonicalPair b a := by
  unfold canonicalPair
  by_cases h : a ≤ b
  · by_cases h' : b ≤ a
    · have hab : a = b := le_antisymm h h'
      subst hab
      simp
    · simp [h, h']
  · by_cases h' : b ≤ a
    · simp [h, h']
    · exact absurd (le_total a b) (by simp [h, h'])

theorem rowKey_mk (x y : String) (s : ℚ) :
    rowKey { employee1Id := x, employee2Id := y, confidenceScore := s } = (x, y) := rfl

theorem upsertMatch_keys (db : List MatchRow) (a b : String) (s : ℚ) :
    (upsertMatch db a b s).map rowKey
      = if db.any (fun r => decide (rowKey r = canonicalPair a b)) then db.map rowKey
        else db.map rowKey ++ [canonicalPair a b] := by
  unfold upsertMatch
  split
  · rw [List.map_map]
    apply List.map_congr_left
    intro r _
    by_cases hr : rowKey r = canonicalPair a b
    · simp only [Function.comp_apply, if_pos hr, rowKey_mk]
      exact Prod.mk.eta.trans hr.symm
    · simp [Function.comp_apply, if_neg hr]
  · simp [rowKey_mk]

theorem upsertMatch_row_eq (db : List MatchRow) (a b : String) (s : ℚ) :
    ∀ r ∈ upsertMatch db a b s, rowKey r = canonicalPair a b →
      r = { employee1Id := (canonicalPair a b).1, employee2Id := (canonicalPair a b).2,
            confidenceScore := s } := by
  intro r hr hkey
  unfold upsertMatch at hr
  split at hr
  · rcases List.mem_map.mp hr with ⟨r0, hr0, heq⟩
    by_cases h0 : rowKey r0 = canonicalPair a b
    · rw [if_pos h0] at heq
      exact heq.symm
    · rw [if_neg h0] at heq
      subst heq
      exact absurd hkey h0
  · rcases List.mem_append.mp hr with h | h
    · rename_i hany
      exact absurd (List.any_eq_true.mpr ⟨r, h, decide_eq_true hkey⟩) hany
    · simpa using h

theorem upsertMatch_mem_key (db : List MatchRow) (a b : String) (s : ℚ) :
    canonicalPair a b ∈ (upsertMatch db a b s).map rowKey := by
  rw [upsertMatch_keys]
  split
  · rename_i hany
    rcases List.any_eq_true.mp hany with ⟨r, hr, hp⟩
    exact List.mem_map.mpr ⟨r, hr, of_decide_eq_true hp⟩
  · simp

theorem upsertMatch_idem (db : List MatchRow) (a b c d : String) (s : ℚ)
    (hcd : canonicalPair c d = canonicalPair a b) :
    upsertMatch (upsertMatch db a b s) c d s = upsertMatch db a b s := by
  have hany : (upsertMatch db a b s).any
      (fun r => decide (rowKey r = canonicalPair c d)) = true := by
    rw [hcd]
    rcases List.mem_map.mp (upsertMatch_mem_key db a b s) with ⟨r, hr, hkey⟩
    exact List.any_eq_true.mpr ⟨r, hr, decide_eq_true hkey⟩
  have hid : ∀ r ∈ upsertMatch db a b s,
      (if rowKey r = canonicalPair c d then
        ({ employee1Id := (canonicalPair c d).1, employee2Id := (canonicalPair c d).2,
           confidenceScore := s } : MatchRow)
      else r) = r := by
    intro r hr
    by_cases hkey : rowKey r = canonicalPair c d
    · rw [if_pos hkey]
      rw [hcd] at hkey
      have hrow := upsertMatch_row_eq db a b s r hr hkey
      rw [hrow, hcd]
    · rw [if_neg hkey]
  calc upsertMatch (upsertMatch db a b s) c d s
      = (upsertMatch db a b s).map
          (fun r => if rowKey r = canonicalPair c d then
            { employee1Id := (canonicalPair c d).1, employee2Id := (canonicalPair c d).2,
              confidenceScore := s } else r) := by
        rw [upsertMatch.eq_def (upsertMatch db a b s) c d s, if_pos hany]
    _ = (upsertMatch db a b s).map id := List.map_congr_left fun r hr => hid r hr
    _ = upsertMatch db a b s := List.map_id _

/-- Claim C5: upserting a pair into a Match table that satisfies the schema
invariant preserves the invariant, leaves exactly one row keyed by the
unordered pair (stored in canonical order), and re-running the upsert for the
unchanged pair — in either argument order — returns the table unchanged, so a
record for (A,B) precludes a separate record for (B,A). -/
theorem c5_canonical_upsert (db : List MatchRow) (a b : String) (s : ℚ)
    (hinv : matchDbInvariant db) :
    matchDbInvariant (upsertMatch db a b s)
    ∧ ((upsertMatch db a b s).map rowKey).countP (fun k => decide (k = canonicalPair a b)) = 1
    ∧ upsertMatch (upsertMatch db a b s) b a s = upsertMatch db a b s
    ∧ upsertMatch (upsertMatch db a b s) a b s = upsertMatch db a b s := by
  have hnodup : ((upsertMatch db a b s).map rowKey).Nodup := by
    rw [upsertMatch_keys]
    split
    · exact hinv.1
    · rename_i hany
      rw [List.nodup_append]
      refine ⟨hinv.1, List.nodup_singleton _, ?_⟩
      intro x hx hx'
      rcases List.mem_map.mp hx with ⟨r, hr, hkey⟩
      have hxkey : x = canonicalPair a b := by simpa using hx'
      exact hany (List.any_eq_true.mpr ⟨r, hr, decide_eq_true (hkey.trans hxkey)⟩)
  refine ⟨⟨hnodup, ?_⟩, ?_, ?_, ?_⟩
  · intro r hr
    unfold upsertMatch at hr
    split at hr
    · rcases List.mem_map.mp hr with ⟨r0, hr0, heq⟩
      by_cases h0 : rowKey r0 = canonicalPair a b
      · rw [if_pos h0] at heq
        rw [← heq]
        exact canonicalPair_fst_le_snd a b
      · rw [if_neg h0] at heq
        rw [← heq]
        exact hinv.2 r0 hr0
    · rcases List.mem_append.mp hr with h | h
      · exact hinv.2 r h
      · rw [List.mem_singleton.mp h]
        exact canonicalPair_fst_le_snd a b
  · have hcount := List.count_eq_one_of_mem hnodup (upsertMatch_mem_key db a b s)
    simpa [List.count] using hcount
  · exact upsertMatch_idem db a b b a s (canonicalPair_comm b a)
  · exact upsertMatch_idem db a b a b s rfl

/-- Witness for `c5_canonical_upsert` on the empty table and the unordered pair
submitted as ("b","a"). -/
theorem c5_canonical_upsert_witness :
    matchDbInvariant (upsertMatch [] "b" "a" (1/2))
    ∧ ((upsertMatch [] "b" "a" (1/2)).map rowKey).countP
        (fun k => decide (k = canonicalPair "b" "a")) = 1
    ∧ upsertMatch (upsertMatch [] "b" "a" (1/2)) "a" "b" (1/2)
        = upsertMatch [] "b" "a" (1/2)
    ∧ upsertMatch (upsertMatch [] "b" "a" (1/2)) "b" "a" (1/2)
        = upsertMatch [] "b" "a" (1/2) := by
  have h := c5_canonical_upsert [] "b" "a" (1/2) ⟨by simp, by simp⟩
  exact ⟨h.1, h.2.1, h.2.2.1, h.2.2.2⟩

/-! ## Symmetry of the comparison primitives -/

theorem beq_symm_str (a b : String) : (a == b) = (b == a) := by
  cases hab : a == b <;> cases hba : b == a <;> try rfl
  · exact absurd (eq_of_beq hba).symm (ne_of_beq_false hab)
  · exact absurd (eq_of_beq hab).symm (ne_of_beq_false hba)

theorem levMatrix_symm_aux :
    ∀ (n : ℕ) (a b : List Char) (i j : ℕ), i + j ≤ n →
      levMatrix a b i j = levMatrix b a j i := by
  intro n
  induction n with
  | zero =>
    intro a b i j h
    have hi : i = 0 := by omega
    have hj : j = 0 := by omega
    subst hi
    subst hj
    simp [levMatrix]
  | succ n ih =>
    intro a b i j h
    cases i with
    | zero =>
      cases j with
      | zero => simp [levMatrix]
      | succ j => simp [levMatrix]
    | succ i =>
      cases j with
      | zero => simp [levMatrix]
      | succ j =>
        have h1 : i + j ≤ n := by omega
        have h2 : (i + 1) + j ≤ n := by omega
        have h3 : i + (j + 1) ≤ n := by omega
        simp only [levMatrix]
        by_cases hc : b.getD i ' ' = a.getD j ' '
        · rw [if_pos hc, if_pos hc.symm]
          exact ih a b i j h1
        · rw [if_neg hc, if_neg fun hh => hc hh.symm]
          rw [ih a b i j h1, ih a b (i + 1) j h2, ih a b i (j + 1) h3]
          exact congrArg (fun x => min (levMatrix b a j i + 1) x) (min_comm _ _)

theorem levenshteinDistance_comm (a b : List Char) :
    levenshteinDistance a b = levenshteinDistance b a :=
  levMatrix_symm_aux (b.length + a.length) a b b.length a.length le_rfl

theorem compareExact_comm (x y : Option String) : compareExact x y = compareExact y x := by
  cases x with
  | none => cases y <;> rfl
  | some a =>
    cases y with
    | none => rfl
    | some b =>
      simp only [compareExact]
      rw [beq_symm_str]

theorem nameSimilarity_comm (a b : List Char) : nameSimilarity a b = nameSimilarity b a := by
  unfold nameSimilarity
  simp only [levenshteinDistance_comm a b, Nat.max_comm a.length b.length,
    max_comm (a.length : ℚ) (b.length : ℚ)]

theorem matchedIdentifiers_comm (A B : Employee) :
    matchedIdentifiers A B = matchedIdentifiers B A := by
  unfold matchedIdentifiers
  rw [compareExact_comm A.ssnHash B.ssnHash, compareExact_comm A.emailHash B.emailHash,
    compareExact_comm A.phoneHash B.phoneHash,
    nameSimilarity_comm A.nameNormalized B.nameNormalized]

theorem matchContext_comm (A B : Employee) : matchContext A B = matchContext B A := by
  unfold matchContext
  congr 1 <;> rw [beq_symm_str]

theorem calculateOverlap_comm (s1 : ℤ) (e1 : Option ℤ) (s2 : ℤ) (e2 : Option ℤ) (now : ℤ) :
    calculateOverlap s1 e1 s2 e2 now = calculateOverlap s2 e2 s1 e1 now := by
  simp only [calculateOverlap, max_comm s2 s1, min_comm (e2.getD now) (e1.getD now),
    min_comm (⌈((e2.getD now - s2 : ℤ) : ℚ) / msPerDay⌉)
      (⌈((e1.getD now - s1 : ℤ) : ℚ) / msPerDay⌉)]

/-- Claim C7: the pairwise score is symmetric — both the aggregated confidence
and the temporal overlap of `scorePair` are unchanged when the two employees are
swapped, because every comparison primitive (exact hash equality,
Levenshtein-based name similarity, interval overlap) is symmetric in its two
arguments. -/
theorem c7_score_symmetric (now : ℤ) (A B : Employee) :
    scorePair now A B = scorePair now B A := by
  simp only [scorePair, ConfidenceScore.calculate, calculateTemporalScore]
  rw [matchedIdentifiers_comm A B, matchContext_comm A B,
    calculateOverlap_comm A.startDate A.endDate B.startDate B.endDate now]

/-! ## Lemmas about the JavaScript split -/

theorem jsSplit_ne_nil (sep : Char) (l : List Char) : jsSplit sep l ≠ [] := by
  cases l with
  | nil => simp [jsSplit]
  | cons c rest =>
    by_cases hc : c = sep
    · simp [jsSplit, hc]
    · simp only [jsSplit, if_neg hc]
      cases h : jsSplit sep rest <;> simp

theorem jsSplit_head (sep : Char) (l : List Char) :
    (jsSplit sep l).head? = some (l.takeWhile fun c => !(c == sep)) := by
  induction l with
  | nil => simp [jsSplit]
  | cons c rest ih =>
    by_cases hc : c = sep
    · subst hc
      simp [jsSplit, List.takeWhile_cons]
    · have hbeq : (c == sep) = false := beq_false_of_ne hc
      simp only [jsSplit, if_neg hc]
      cases h : jsSplit sep rest with
      | nil => exact absurd h (jsSplit_ne_nil sep rest)
      | cons p ps =>
        rw [h] at ih
        have hp : p = rest.takeWhile fun c => !(c == sep) := by simpa using ih
        simp [List.takeWhile_cons, hbeq, hp]

theorem jsSplit_getElem1 (sep : Char) (l : List Char) :
    (jsSplit sep l)[1]?
      = if l.contains sep then
          some (((l.dropWhile fun c => !(c == sep)).tail).takeWhile fun c => !(c == sep))
        else none := by
  induction l with
  | nil => simp [jsSplit]
  | cons c rest ih =>
    by_cases hc : c = sep
    · rw [hc]
      have hsplit : jsSplit sep (sep :: rest) = [] :: jsSplit sep rest := by
        simp [jsSplit]
      rw [hsplit, List.getElem?_cons_succ, ← List.head?_eq_getElem?, jsSplit_head]
      have hcont : (sep :: rest).contains sep = true := by simp
      rw [if_pos hcont]
      have hdrop : (sep :: rest).dropWhile (fun x => !(x == sep)) = sep :: rest := by
        simp [List.dropWhile_cons]
      rw [hdrop]
      rfl
    · have hbeq : (c == sep) = false := beq_false_of_ne hc
      have hbeq' : (sep == c) = false := beq_false_of_ne fun hh => hc hh.symm
      simp only [jsSplit, if_neg hc]
      cases h : jsSplit sep rest with
      | nil => exact absurd h (jsSplit_ne_nil sep rest)
      | cons p ps =>
        rw [h] at ih
        rw [List.getElem?_cons_succ] at ih ⊢
        rw [ih]
        have hcont : (c :: rest).contains sep = rest.contains sep := by
          rw [List.contains_cons, hbeq', Bool.false_or]
        have hdrop : (c :: rest).dropWhile (fun x => !(x == sep))
            = rest.dropWhile (fun x => !(x == sep)) := by
          rw [List.dropWhile_cons, hbeq]
          simp
        rw [hcont, hdrop]

theorem contains_iff_mem_chars (l : List (List Char)) (x : List Char) :
    l.contains x = true ↔ x ∈ l := by
  induction l with
  | nil => simp
  | cons a as ih =>
    rw [List.contains_cons, List.mem_cons, Bool.or_eq_true, beq_iff_eq, ih]

/-- Claim C10 as stated is false on the code: the input "a@gmail.com@b" is
rejected by the business-email rule — splitting on the at sign puts "gmail.com"
in the second component — although the substring after its first at sign,
"gmail.com@b", is not one of the personal domains. -/
theorem c10_counterexample :
    isBusinessEmail ("a@gmail.com@b".toList) = false
    ∧ ((afterFirstAt ("a@gmail.com@b".toList)).getD []).map Char.toLower
        ∉ personalDomains := by
  constructor
  · decide
  · decide

/-- Claim C10, amended: the sign-in/sign-up business-email rule rejects exactly
when the lowercased segment between the first at sign and the following at sign
or end of string (the second component of splitting on the at sign) is
gmail.com, yahoo.com, hotmail.com or outlook.com — for emails with at most one
at sign this segment is the whole substring after the first at sign — and the
check is total: an input without an at sign is treated as not-personal and
passes this rule. -/
theorem c10_business_email (email : List Char) :
    (isBusinessEmail email = false
      ↔ ((segmentAfterFirstAt email).getD []).map Char.toLower ∈ personalDomains)
    ∧ (email.contains '@' = false → isBusinessEmail email = true) := by
  have hseg : (jsSplit '@' email)[1]? = segmentAfterFirstAt email := by
    rw [jsSplit_getElem1]
    unfold segmentAfterFirstAt
    rfl
  constructor
  · simp only [isBusinessEmail, hseg]
    cases hc : segmentAfterFirstAt email with
    | none => decide
    | some s =>
      simp only [Option.map_some', Option.getD_some]
      rw [← contains_iff_mem_chars personalDomains (s.map Char.toLower)]
      cases hb : personalDomains.contains (s.map Char.toLower) <;> simp [hb]
  · intro hnc
    have hseg0 : segmentAfterFirstAt email = none := by
      unfold segmentAfterFirstAt
      rw [if_neg fun h => by rw [hnc] at h; exact absurd h (by simp)]
    simp only [isBusinessEmail, hseg, hseg0]
    decide

/-- Witness for `c10_business_email`: an input without an at sign passes the
business-email rule. -/
theorem c10_business_email_witness :
    isBusinessEmail ("abc".toList) = true :=
  (c10_business_email ("abc".toList)).2 (by decide)

end VerifyHire
